import Mathlib

/-!
Verification development for the agentic form-filler pipeline
(`agentic_form_filler.py`): a shallow embedding in Lean 4 of the
deterministic pattern-extraction strategy, the quality scoring, the
quality-assurance assessment, the AI-response parser and the
orchestrator's refinement loop, together with theorems settling the
specification's claims about them.

Modelling conventions:
* Python floats are modelled as rationals (`ℚ`); the arithmetic in the
  scoring formulas is exact on the inputs of interest.
* Python dicts are modelled as association lists in insertion order;
  assignment `d[k] = v` is `pySet` (overwrite in place, else append) and
  `d.update(other)` is `pyUpdate`.
* Python exceptions are modelled with `Except`/`Option` return types.
-/

attribute [local semireducible] Rat.ofScientific Rat.add Rat.mul Rat.inv Rat.sub

namespace AgenticFormFiller

/-- A form field as produced by `FormFieldExtractor` and consumed by the
agents: `field.get('name','')`, `field.get('field_type','Text')`,
`field.get('alt_text','')`.  Only these three entries are read by the
extraction and assessment code. -/
structure FormField where
  name : String
  fieldType : String
  altText : String
deriving DecidableEq, Repr

/-- `extracted_data`: a Python `Dict[str, str]` in insertion order. -/
abbrev FieldMap := List (String × String)

/-- `confidence_scores`: a Python `Dict[str, float]` (floats as `ℚ`). -/
abbrev ConfMap := List (String × ℚ)

/-- Python `d.get(k)` / `d[k]` lookup on an insertion-ordered dict. -/
def pyGet {α : Type} : List (String × α) → String → Option α
  | [], _ => none
  | (k', v) :: rest, k => if k' = k then some v else pyGet rest k

/-- Python `k in d`. -/
def pyHasKey {α : Type} (m : List (String × α)) (k : String) : Bool :=
  (pyGet m k).isSome

/-- Python `d[k] = v`: overwrite the value in place if the key exists,
otherwise append the new pair at the end (insertion order). -/
def pySet {α : Type} : List (String × α) → String → α → List (String × α)
  | [], k, v => [(k, v)]
  | (k', v') :: rest, k, v =>
      if k' = k then (k, v) :: rest else (k', v') :: pySet rest k v

/-- Python `d.update(other)`: set each of `other`'s pairs in order. -/
def pyUpdate {α : Type} (m other : List (String × α)) : List (String × α) :=
  other.foldl (fun acc p => pySet acc p.1 p.2) m

deriving instance DecidableEq for Except

/-- The key list of a dict, in insertion order (`d.keys()`). -/
def keysOf {α : Type} (m : List (String × α)) : List String :=
  m.map Prod.fst

/-! ## Quality scores

`DataExtractionAgent._calculate_quality_score` (40 % completion, 40 %
mean confidence, 20 % high-confidence bonus, clamped to 1.0) and
`AgenticFormFillerOrchestrator._calculate_quality_score` (60 %
completion, 40 % mean confidence, clamped to 1.0). -/

/-- Shallow embedding of `DataExtractionAgent._calculate_quality_score`.
Mirrors the source line by line: empty schema returns `0.0`; completion
rate is `filled / total`; the average confidence is taken over the
confidence dict (0 when it is empty); the bonus counts confidences
strictly above `0.8` divided by `max(filled_fields, 1)` (0 when nothing
is filled); the blend is clamped with `min(·, 1.0)`. -/
def dataAgentQualityScore (extracted : FieldMap) (confs : ConfMap)
    (formFields : List FormField) : ℚ :=
  if formFields.isEmpty then 0 else
  let totalFields : ℚ := (formFields.length : ℚ)
  let filledFields : ℚ := (extracted.length : ℚ)
  let completionRate : ℚ := filledFields / totalFields
  let avgConfidence : ℚ :=
    if confs.isEmpty then 0 else ((confs.map Prod.snd).sum) / (confs.length : ℚ)
  let highConfidenceCount : ℚ :=
    ((confs.filter (fun p => (0.8 : ℚ) < p.2)).length : ℚ)
  let qualityBonus : ℚ :=
    if 0 < extracted.length then highConfidenceCount / max filledFields 1 else 0
  min (completionRate * 0.4 + avgConfidence * 0.4 + qualityBonus * 0.2) 1

/-- Shallow embedding of
`AgenticFormFillerOrchestrator._calculate_quality_score`: empty schema
returns `0.0`; otherwise 60 % completion rate plus 40 % average
confidence, clamped with `min(·, 1.0)`.  (Unlike the extraction agent's
score there is no high-confidence bonus term.) -/
def orchestratorQualityScore (extracted : FieldMap) (confs : ConfMap)
    (formFields : List FormField) : ℚ :=
  if formFields.isEmpty then 0 else
  let completionRate : ℚ := (extracted.length : ℚ) / (formFields.length : ℚ)
  let avgConfidence : ℚ :=
    if confs.isEmpty then 0 else ((confs.map Prod.snd).sum) / (confs.length : ℚ)
  min (completionRate * 0.6 + avgConfidence * 0.4) 1

/-- The specification's formula for the pattern strategy's quality score
(§4.2 step 5), written from the spec's words for comparison with the
code: 40 % completion rate (filled / total target fields), 40 % mean
confidence across the filled fields (0 when none are filled), 20 % the
fraction of filled fields whose confidence strictly exceeds 0.8, clamped
to at most 1.0. -/
def specPatternQuality (extracted : FieldMap) (confs : ConfMap)
    (formFields : List FormField) : ℚ :=
  let filled : ℚ := (extracted.length : ℚ)
  let completion : ℚ := filled / (formFields.length : ℚ)
  let meanConf : ℚ :=
    if extracted.length = 0 then 0 else ((confs.map Prod.snd).sum) / filled
  let highFrac : ℚ :=
    if extracted.length = 0 then 0
    else ((confs.filter (fun p => (0.8 : ℚ) < p.2)).length : ℚ) / filled
  min (0.4 * completion + 0.4 * meanConf + 0.2 * highFrac) 1

/-! ## A small regular-expression engine

The extraction and assessment code is driven by Python `re` patterns.
We embed the patterns as abstract syntax (`Re`) and give them Python
semantics with a backtracking matcher: leftmost match, greedy
quantifiers, ordered alternation, numbered capture groups, optional
case-insensitive matching (`re.IGNORECASE` / a leading `(?i)`, which in
Python applies to the whole pattern).  The matcher carries a fuel
argument that strictly dominates the recursion depth actually needed,
so on every input the fuelled matcher agrees with the unbounded
backtracking search. -/

/-- Regex abstract syntax: empty, literal string, character class
(negated flag, listed characters, character ranges), concatenation,
ordered alternation, greedy option, greedy star, numbered capture
group, word boundary. -/
inductive Re where
  | eps : Re
  | lit : List Char → Re
  | cls : Bool → List Char → List (Char × Char) → Re
  | seq : Re → Re → Re
  | alt : Re → Re → Re
  | opt : Re → Re
  | star : Re → Re
  | group : Nat → Re → Re
  | wordB : Re
deriving Repr

def inRanges (c : Char) : List (Char × Char) → Bool
  | [] => false
  | (lo, hi) :: rest => (lo ≤ c && c ≤ hi) || inRanges c rest

def clsBase (c : Char) (singles : List Char) (ranges : List (Char × Char)) : Bool :=
  singles.contains c || inRanges c ranges

/-- Membership in a character class; under `IGNORECASE` a character also
matches through its lower- or upper-case form (and a negated class
rejects exactly when the positive test accepts, as in Python). -/
def clsMatch (ci neg : Bool) (singles : List Char) (ranges : List (Char × Char))
    (c : Char) : Bool :=
  let hit := clsBase c singles ranges ||
    (ci && (clsBase c.toLower singles ranges || clsBase c.toUpper singles ranges))
  if neg then !hit else hit

def charsEq (ci : Bool) (a b : Char) : Bool :=
  a = b || (ci && a.toLower = b.toLower)

/-- Does the literal `cs` occur in `s` starting at index `i`? -/
def litMatchAt (ci : Bool) (s : List Char) : Nat → List Char → Bool
  | _, [] => true
  | i, c :: cs =>
    match s.get? i with
    | some c' => charsEq ci c' c && litMatchAt ci s (i + 1) cs
    | none => false

def isWordChar (c : Char) : Bool := c.isAlphanum || c = '_'

def isWordAt (s : List Char) (i : Nat) : Bool :=
  match s.get? i with
  | some c => isWordChar c
  | none => false

/-- Python `\b`: a word character on exactly one side of position `i`. -/
def wordBoundaryAt (s : List Char) (i : Nat) : Bool :=
  (if i = 0 then false else isWordAt s (i - 1)) != isWordAt s i

/-- Capture spans: (group index, start, stop); the most recent binding
of a group shadows earlier ones. -/
abbrev Spans := List (Nat × Nat × Nat)

def setSpan (g : Spans) (n st en : Nat) : Spans := (n, st, en) :: g

def getSpan : Spans → Nat → Option (Nat × Nat)
  | [], _ => none
  | (m, st, en) :: rest, n => if m = n then some (st, en) else getSpan rest n

/-- The backtracking matcher in continuation-passing style.  `reMatch ci
s fuel r i g k` tries to match `r` at index `i` of `s` with capture
state `g`; on each way the match can succeed it calls `k` with the end
index and captures, backtracking (trying the next alternative) whenever
`k` returns `none`.  Greedy `opt`/`star` try the longer alternative
first and `alt` tries the left branch first, exactly as Python does.  A
`star` iteration that consumed no input stops iterating (Python's
empty-match rule).  Fuel bounds the nesting depth only; it is chosen
large enough by `reFuel` below. -/
def reMatch (ci : Bool) (s : List Char) :
    Nat → Re → Nat → Spans → (Nat → Spans → Option (Nat × Spans)) →
    Option (Nat × Spans)
  | 0, _, _, _, _ => none
  | fuel + 1, r, i, g, k =>
    match r with
    | .eps => k i g
    | .lit cs => if litMatchAt ci s i cs then k (i + cs.length) g else none
    | .cls neg singles ranges =>
        match s.get? i with
        | some c => if clsMatch ci neg singles ranges c then k (i + 1) g else none
        | none => none
    | .seq a b => reMatch ci s fuel a i g (fun j g₁ => reMatch ci s fuel b j g₁ k)
    | .alt a b =>
        match reMatch ci s fuel a i g k with
        | some res => some res
        | none => reMatch ci s fuel b i g k
    | .opt a =>
        match reMatch ci s fuel a i g k with
        | some res => some res
        | none => k i g
    | .star a =>
        match reMatch ci s fuel a i g
            (fun j g₁ => if i < j then reMatch ci s fuel (.star a) j g₁ k else k j g₁) with
        | some res => some res
        | none => k i g
    | .group n a => reMatch ci s fuel a i g (fun j g₁ => k j (setSpan g₁ n i j))
    | .wordB => if wordBoundaryAt s i then k i g else none

def reSize : Re → Nat
  | .eps => 1
  | .lit cs => cs.length + 1
  | .cls _ _ _ => 1
  | .seq a b => reSize a + reSize b + 1
  | .alt a b => reSize a + reSize b + 1
  | .opt a => reSize a + 1
  | .star a => reSize a + 1
  | .group _ a => reSize a + 1
  | .wordB => 1

/-- Enough fuel for any match attempt: nesting depth is bounded by the
pattern size plus one fuel unit per star iteration, and every star
iteration consumes at least one input character. -/
def reFuel (s : List Char) (r : Re) : Nat := 2 * s.length + 2 * reSize r + 16

/-- Result of a successful `re.search`-style match. -/
structure MatchRes where
  start : Nat
  stop : Nat
  spans : Spans
deriving Repr

/-- Attempt an anchored match of `r` at index `i`. -/
def searchAt (ci : Bool) (r : Re) (s : List Char) (i : Nat) : Option (Nat × Spans) :=
  reMatch ci s (reFuel s r) r i [] (fun j g => some (j, g))

def searchFromAux (ci : Bool) (r : Re) (s : List Char) : Nat → Nat → Option MatchRes
  | 0, _ => none
  | fuel + 1, i =>
    match searchAt ci r s i with
    | some (j, g) => some ⟨i, j, g⟩
    | none => if i < s.length then searchFromAux ci r s fuel (i + 1) else none

/-- Python `re.search` starting at index `i`: the leftmost match. -/
def reSearchFrom (ci : Bool) (r : Re) (s : List Char) (i : Nat) : Option MatchRes :=
  searchFromAux ci r s (s.length + 1 - i) i

/-- Python `re.search`: the leftmost match in the whole string. -/
def reSearch (ci : Bool) (r : Re) (s : List Char) : Option MatchRes :=
  reSearchFrom ci r s 0

def sliceStr (s : List Char) (st en : Nat) : String :=
  String.mk ((s.drop st).take (en - st))

/-- `match.group(n)` (as `none` when the group did not participate). -/
def mGroup (s : List Char) (m : MatchRes) (n : Nat) : Option String :=
  (getSpan m.spans n).map (fun p => sliceStr s p.1 p.2)

/-- `match.group(0)`: the whole matched text. -/
def mWhole (s : List Char) (m : MatchRes) : String := sliceStr s m.start m.stop

def findAllAux (ci : Bool) (r : Re) (s : List Char) : Nat → Nat → List MatchRes
  | 0, _ => []
  | fuel + 1, i =>
    match reSearchFrom ci r s i with
    | none => []
    | some m =>
        m :: findAllAux ci r s fuel (if m.stop = m.start then m.stop + 1 else m.stop)

/-- Python `re.findall`: non-overlapping matches scanned left to right
(an empty match advances the scan position by one). -/
def reFindAll (ci : Bool) (r : Re) (s : List Char) : List MatchRes :=
  findAllAux ci r s (s.length + 2) 0

/-! Derived regex constructors. -/

def rchar (c : Char) : Re := .lit [c]

def rstr (s : String) : Re := .lit s.toList

def rcat : List Re → Re
  | [] => .eps
  | [r] => r
  | r :: rest => .seq r (rcat rest)

def ror : List Re → Re
  | [] => .eps
  | [r] => r
  | r :: rest => .alt r (ror rest)

def rplus (r : Re) : Re := .seq r (.star r)

def rrep (r : Re) (n : Nat) : Re := rcat (List.replicate n r)

/-- Counted repetition with a range, greedy: the mandatory copies
followed by greedy optional copies. -/
def rrepRange (r : Re) (lo hi : Nat) : Re :=
  rcat (List.replicate lo r ++ List.replicate (hi - lo) (.opt r))

/-- Python `\s` over ASCII input. -/
def wsChars : List Char := [' ', '\t', '\n', '\r', '\x0b', '\x0c']

def rws : Re := .cls false wsChars []

def rdigit : Re := .cls false [] [('0', '9')]

def rnotNL : Re := .cls true ['\n', '\r'] []

/-! Python string helpers used by the extraction code. -/

def pyLowerChars (s : List Char) : List Char := s.map Char.toLower

def pyLower (s : String) : String := String.mk (pyLowerChars s.toList)

def startsWithChars : List Char → List Char → Bool
  | _, [] => true
  | [], _ :: _ => false
  | c :: cs, d :: ds => c = d && startsWithChars cs ds

/-- Python substring containment (`needle in hay`). -/
def hasSubstr : List Char → List Char → Bool
  | [], needle => needle.isEmpty
  | c :: rest, needle => startsWithChars (c :: rest) needle || hasSubstr rest needle

/-- Python substring containment on strings (`needle in hay`). -/
def strContains (hay needle : String) : Bool :=
  hasSubstr hay.toList needle.toList

def isPySpace (c : Char) : Bool := wsChars.contains c

def pyStripChars (s : List Char) : List Char :=
  ((s.dropWhile isPySpace).reverse.dropWhile isPySpace).reverse

/-- Python `str.strip()`. -/
def pyStrip (s : String) : String := String.mk (pyStripChars s.toList)

/-- Python `str.replace(a, b)` for single characters. -/
def pyReplaceChar (a b : Char) (s : String) : String :=
  String.mk (s.toList.map (fun c => if c = a then b else c))

/-! ## The pattern table of `_extract_with_patterns`

Each entry embeds one of the nine Python regexes, compiled to `Re`
syntax, together with its number of capture groups.  All nine are
applied with `re.IGNORECASE`. -/

/-- The phone separator class [-.\s]. -/
def phoneSep : Re := .cls false ('-' :: '.' :: wsChars) []

/-- (?i)case\s*(?:number|no\.?|#)\s*:?\s*([A-Z0-9\-]+) -/
def casePat : Re :=
  rcat [rstr "case", .star rws,
        ror [rstr "number", rcat [rstr "no", .opt (rchar '.')], rchar '#'],
        .star rws, .opt (rchar ':'), .star rws,
        .group 1 (rplus (.cls false ['-'] [('A', 'Z'), ('0', '9')]))]

/-- (?:\+?1[-.\s]?)?\(?([0-9]3)\)?[-.\s]?([0-9]3)[-.\s]?([0-9]4), where
[0-9]n stands for the counted repetition of a digit n times. -/
def phonePat : Re :=
  rcat [.opt (rcat [.opt (rchar '+'), rchar '1', .opt phoneSep]),
        .opt (rchar '('), .group 1 (rrep rdigit 3), .opt (rchar ')'),
        .opt phoneSep, .group 2 (rrep rdigit 3), .opt phoneSep,
        .group 3 (rrep rdigit 4)]

/-- [a-zA-Z0-9._%+-]+@[a-zA-Z0-9.-]+\.[a-zA-Z]+ with the final run
required to have length at least two (the regex writes it as a counted
repetition with open upper bound). -/
def emailPat : Re :=
  rcat [rplus (.cls false ['.', '_', '%', '+', '-'] [('a', 'z'), ('A', 'Z'), ('0', '9')]),
        rchar '@',
        rplus (.cls false ['.', '-'] [('a', 'z'), ('A', 'Z'), ('0', '9')]),
        rchar '.',
        rrep (.cls false [] [('a', 'z'), ('A', 'Z')]) 2,
        .star (.cls false [] [('a', 'z'), ('A', 'Z')])]

/-- The date pattern: \b( digits, a slash-or-dash class, digits, a
slash-or-dash class, digits )\b with the three digit runs counted as
one to two, one to two and two to four repetitions respectively. -/
def datePat : Re :=
  rcat [.wordB,
        .group 1 (rcat [rrepRange rdigit 1 2, .cls false ['/', '-'] [],
                        rrepRange rdigit 1 2, .cls false ['/', '-'] [],
                        rrepRange rdigit 2 4]),
        .wordB]

/-- \$\s*([0-9,]+(?:\.[0-9][0-9])?) -/
def moneyPat : Re :=
  rcat [rchar '$', .star rws,
        .group 1 (rcat [rplus (.cls false [','] [('0', '9')]),
                        .opt (rcat [rchar '.', rrep rdigit 2])])]

/-- \d+\s+[A-Za-z\s]+(Street|St|Avenue|Ave|Road|Rd|Drive|Dr|Lane|Ln|Boulevard|Blvd) -/
def addressPat : Re :=
  rcat [rplus rdigit, rplus rws, rplus (.cls false wsChars [('A', 'Z'), ('a', 'z')]),
        .group 1 (ror [rstr "Street", rstr "St", rstr "Avenue", rstr "Ave",
                       rstr "Road", rstr "Rd", rstr "Drive", rstr "Dr",
                       rstr "Lane", rstr "Ln", rstr "Boulevard", rstr "Blvd"])]

/-- (?i)name\s*:?\s*([A-Za-z\s\.]+) -/
def namePat : Re :=
  rcat [rstr "name", .star rws, .opt (rchar ':'), .star rws,
        .group 1 (rplus (.cls false ('.' :: wsChars) [('A', 'Z'), ('a', 'z')]))]

/-- (?:\d3-\d2-\d4) with counted digit repetitions; no capture group. -/
def ssnPat : Re :=
  rcat [rrep rdigit 3, rchar '-', rrep rdigit 2, rchar '-', rrep rdigit 4]

/-- (?i)(?:zip|postal)\s*:?\s*(\d5(?:-\d4)?) with counted repetitions. -/
def zipPat : Re :=
  rcat [ror [rstr "zip", rstr "postal"], .star rws, .opt (rchar ':'), .star rws,
        .group 1 (rcat [rrep rdigit 5, .opt (rcat [rchar '-', rrep rdigit 4])])]

/-- The `patterns` dict of `_extract_with_patterns`, in its Python
insertion (= iteration) order, with each pattern's capture-group
count. -/
def patternTable : List (String × Re × Nat) :=
  [("case_number", casePat, 1), ("phone", phonePat, 3), ("email", emailPat, 0),
   ("date", datePat, 1), ("money", moneyPat, 1), ("address", addressPat, 1),
   ("name", namePat, 1), ("ssn", ssnPat, 0), ("zip", zipPat, 1)]

/-! ## `DataExtractionAgent._extract_with_patterns` -/

/-- The Python f-string `f"({m[0]}) {m[1]}-{m[2]}"` reassembling a phone
match from its three capture groups. -/
def formatPhone (g1 g2 g3 : String) : String :=
  "(" ++ g1 ++ ") " ++ g2 ++ "-" ++ g3

/-- The category-match loop: walk the pattern table in order; for the
first category whose name occurs in the lowered field name or alt text
AND whose pattern matches the corpus, produce the value:
`re.findall(...)[0]` is the first (leftmost) match, taken as a tuple of
the three groups for the phone pattern (then formatted), as the whole
match for a pattern without groups, and as the first group otherwise.
A category whose keyword matches but whose pattern finds nothing does
not stop the walk. -/
def tryCategories (text fieldLower altLower : List Char) :
    List (String × Re × Nat) → Option String
  | [] => none
  | (pname, pat, n) :: rest =>
    if hasSubstr fieldLower pname.toList || hasSubstr altLower pname.toList then
      match reSearch true pat text with
      | some m =>
          if pname = "phone" ∧ 3 ≤ n then
            some (formatPhone ((mGroup text m 1).getD "") ((mGroup text m 2).getD "")
                              ((mGroup text m 3).getD ""))
          else some (if n = 0 then mWhole text m else (mGroup text m 1).getD "")
      | none => tryCategories text fieldLower altLower rest
    else tryCategories text fieldLower altLower rest

/-- The fallback phrase pattern `re.escape(term) + r"\s*:?\s*([^\n\r]+)"`
(the escape makes the term a literal). -/
def phrasePat (term : String) : Re :=
  rcat [.lit term.toList, .star rws, .opt (rchar ':'), .star rws,
        .group 1 (rplus rnotNL)]

/-- The fallback search terms: the alt text when non-empty, then the
field name with underscores and dots replaced by spaces and stripped,
when non-empty. -/
def searchTermsFor (f : FormField) : List String :=
  (if f.altText ≠ "" then [f.altText] else []) ++
  (let cleaned := pyStrip (pyReplaceChar '.' ' ' (pyReplaceChar '_' ' ' f.name))
   if cleaned ≠ "" then [cleaned] else [])

/-- The fallback phrase-search loop: for each term in order, search the
corpus case-insensitively for the term followed by optional whitespace,
an optional colon and the rest of the line; accept the stripped capture
only when its length is strictly between 0 and 200. -/
def fallbackPhrase (text : List Char) : List String → Option String
  | [] => none
  | term :: rest =>
    if term = "" then fallbackPhrase text rest
    else
      match reSearch true (phrasePat term) text with
      | some m =>
          let value := pyStrip ((mGroup text m 1).getD "")
          if 0 < value.length ∧ value.length < 200 then some value
          else fallbackPhrase text rest
      | none => fallbackPhrase text rest

/-- The per-field body of the extraction loop: a category match yields
confidence 0.8, otherwise a fallback phrase match yields confidence
0.6, otherwise the field is omitted. -/
def extractField (text : List Char) (f : FormField) : Option (String × ℚ) :=
  let fieldLower := pyLowerChars f.name.toList
  let altLower := pyLowerChars f.altText.toList
  match tryCategories text fieldLower altLower patternTable with
  | some v => some (v, 0.8)
  | none => (fallbackPhrase text (searchTermsFor f)).map (fun v => (v, 0.6))

def extractLoop (text : List Char) :
    List FormField → FieldMap → ConfMap → FieldMap × ConfMap
  | [], d, c => (d, c)
  | f :: rest, d, c =>
    match extractField text f with
    | none => extractLoop text rest d c
    | some (v, conf) =>
        extractLoop text rest (pySet d f.name v) (pySet c f.name conf)

/-- Shallow embedding of `DataExtractionAgent._extract_with_patterns`:
walk the schema fields in order, writing each successful extraction and
its confidence into the two result dicts. -/
def extractWithPatterns (text : String) (formFields : List FormField) :
    FieldMap × ConfMap :=
  extractLoop text.toList formFields [] []

/-! ## `QualityAssuranceAgent` -/

/-- The three label-variant patterns of `_find_missing_field` for one
search term (the term is regex-escaped in Python, hence a literal):
term + optional-ws + optional colon + rest of line; term + optional-ws
+ required colon-or-dash + optional-ws + rest of line; lowered term +
optional-ws + optional colon-or-dash + optional-ws + rest of line.  All
three are searched with `re.IGNORECASE`. -/
def missingPats (term : String) : List Re :=
  [rcat [.lit term.toList, .star rws, .opt (rchar ':'), .star rws,
         .group 1 (rplus rnotNL)],
   rcat [.lit term.toList, .star rws, .cls false [':', '-'] [], .star rws,
         .group 1 (rplus rnotNL)],
   rcat [.lit (pyLower term).toList, .star rws, .opt (.cls false [':', '-'] []),
         .star rws, .group 1 (rplus rnotNL)]]

/-- The inner pattern loop of `_find_missing_field`: the first pattern
whose stripped first-group capture has length strictly between 0 and
200 wins. -/
def searchPatList (text : List Char) : List Re → Option String
  | [] => none
  | p :: rest =>
    match reSearch true p text with
    | some m =>
        let value := pyStrip ((mGroup text m 1).getD "")
        if 0 < value.length ∧ value.length < 200 then some value
        else searchPatList text rest
    | none => searchPatList text rest

def findMissingLoop (text : List Char) : List String → Option String
  | [] => none
  | term :: rest =>
    if term = "" then findMissingLoop text rest
    else
      match searchPatList text (missingPats term) with
      | some v => some v
      | none => findMissingLoop text rest

/-- Shallow embedding of `QualityAssuranceAgent._find_missing_field`:
try the alt text, then the field name with underscores replaced by
spaces, against the three label-variant patterns. -/
def findMissingField (f : FormField) (sourceText : String) : Option String :=
  findMissingLoop sourceText.toList [f.altText, pyReplaceChar '_' ' ' f.name]

/-- (?i)(?:name|petitioner|respondent)\s*:?\s*([A-Z][a-z]+\s+[A-Z][a-z]+)
— the leading (?i) makes the whole pattern case-insensitive in Python,
including the bracketed letter classes. -/
def improveNamePat : Re :=
  rcat [ror [rstr "name", rstr "petitioner", rstr "respondent"],
        .star rws, .opt (rchar ':'), .star rws,
        .group 1 (rcat [.cls false [] [('A', 'Z')], rplus (.cls false [] [('a', 'z')]),
                        rplus rws,
                        .cls false [] [('A', 'Z')], rplus (.cls false [] [('a', 'z')])])]

def digitVal (c : Char) : Nat := c.toNat - '0'.toNat

def natFromDigits (ds : List Char) : Nat :=
  ds.foldl (fun a c => a * 10 + digitVal c) 0

/-- Python `float(amt.replace(',', ''))` for a string `amt` matched by
the currency pattern (digits and commas, optionally a dot and two
digits), returned as an exact number of cents.  `none` models the
`ValueError` Python raises when the digits-and-commas run contains no
digit at all (so that removing commas leaves nothing before the
optional fraction). -/
def parseCents (amt : String) : Option Nat :=
  let t := (amt.toList.filter (fun c => c ≠ ','))
  let (ip, rest) := t.span Char.isDigit
  match rest with
  | [] => if ip.isEmpty then none else some (natFromDigits ip * 100)
  | '.' :: d1 :: d2 :: [] => some (natFromDigits ip * 100 + digitVal d1 * 10 + digitVal d2)
  | _ => none

def maxNat (xs : List Nat) : Nat := xs.foldl max 0

/-- Digit grouping for the Python format spec `,` : walk the reversed
digit list inserting a comma after every third digit. -/
def insertCommasRev : List Char → Nat → List Char
  | [], _ => []
  | c :: rest, k =>
    if k = 2 then
      c :: (if rest.isEmpty then [] else ',' :: insertCommasRev rest 0)
    else c :: insertCommasRev rest (k + 1)

def twoDigits (n : Nat) : String :=
  (if n < 10 then "0" else "") ++ String.mk (Nat.toDigits 10 n)

/-- The Python f-string `f"$\x7bmax_amount:,.2f\x7d"` on an exact number
of cents: dollar sign, thousands-grouped integer part, a dot and two
fraction digits. -/
def formatMoneyCents (cents : Nat) : String :=
  "$" ++ String.mk ((insertCommasRev (Nat.toDigits 10 (cents / 100)).reverse 0).reverse)
      ++ "." ++ twoDigits (cents % 100)

def allCents : List String → Option (List Nat)
  | [] => some []
  | s :: rest =>
    match parseCents s, allCents rest with
    | some c, some cs => some (c :: cs)
    | _, _ => none

/-- Shallow embedding of
`QualityAssuranceAgent._improve_field_extraction`: branch on the
lowered, underscore-cleaned field name containing "name", "case" or
"amount"/"total"; the first two return the stripped first group of
their pattern (searched case-insensitively because of the leading
(?i)), the third formats the numerically largest of all currency
matches.  `Except Unit` models the `ValueError` Python would raise on a
digit-free currency match (propagated to the caller). -/
def improveFieldExtraction (fieldName : String) (sourceText : String) :
    Except Unit (Option String) :=
  let text := sourceText.toList
  let clean := pyReplaceChar '_' ' ' (pyLower fieldName)
  if strContains clean "name" then
    .ok ((reSearch true improveNamePat text).map
      (fun m => pyStrip ((mGroup text m 1).getD "")))
  else if strContains clean "case" then
    .ok ((reSearch true casePat text).map
      (fun m => pyStrip ((mGroup text m 1).getD "")))
  else if strContains clean "amount" || strContains clean "total" then
    let ms := (reFindAll false moneyPat text).map (fun m => (mGroup text m 1).getD "")
    if ms.isEmpty then .ok none
    else
      match allCents ms with
      | some cs => .ok (some (formatMoneyCents (maxNat cs)))
      | none => .error ()
  else .ok none

/-- The `QualityAssessment` dataclass. -/
structure QualityAssessment where
  overallScore : ℚ
  completionRate : ℚ
  confidenceAvg : ℚ
  issues : List String
  recommendations : List String
  correctedFields : FieldMap
  shouldRetry : Bool
deriving Repr, DecidableEq

/-- The missing-field loop of `_assess_quality`: for every schema field
absent from the extracted map, a `_find_missing_field` hit becomes a
correction plus a recommendation, a miss becomes an issue.  (The
diagnostic strings are abbreviated: Python wraps names in quotes and
appends the found value; no downstream logic or claim reads them.) -/
def missingLoop (extracted : FieldMap) (src : String) :
    List FormField → FieldMap → List String → List String →
    FieldMap × List String × List String
  | [], corr, iss, recs => (corr, iss, recs)
  | f :: rest, corr, iss, recs =>
    if pyHasKey extracted f.name then missingLoop extracted src rest corr iss recs
    else
      match findMissingField f src with
      | some v =>
          missingLoop extracted src rest (pySet corr f.name v) iss
            (recs ++ ["Found missing field " ++ f.name ++ ": " ++ v])
      | none =>
          missingLoop extracted src rest corr
            (iss ++ ["Missing required field: " ++ f.name]) recs

/-- The low-confidence loop of `_assess_quality`: for every confidence
entry below 0.6, record an issue and attempt
`_improve_field_extraction`; a non-empty improvement differing from the
currently extracted value becomes a correction plus a recommendation.
An exception from the improvement propagates. -/
def lowConfLoop (extracted : FieldMap) (src : String) :
    List (String × ℚ) → FieldMap → List String → List String →
    Except Unit (FieldMap × List String × List String)
  | [], corr, iss, recs => .ok (corr, iss, recs)
  | (fname, conf) :: rest, corr, iss, recs =>
    if conf < 0.6 then
      let iss₁ := iss ++ ["Low confidence for field " ++ fname]
      match improveFieldExtraction fname src with
      | .error e => .error e
      | .ok (some v) =>
          if v ≠ "" ∧ some v ≠ pyGet extracted fname then
            lowConfLoop extracted src rest (pySet corr fname v) iss₁
              (recs ++ ["Improved field " ++ fname ++ ": " ++ v])
          else lowConfLoop extracted src rest corr iss₁ recs
      | .ok none => lowConfLoop extracted src rest corr iss₁ recs
    else lowConfLoop extracted src rest corr iss recs

/-- Shallow embedding of `QualityAssuranceAgent._assess_quality`:
completion rate and confidence average, then the missing-field loop,
then the low-confidence loop, then
`overall_score = corrected_completion * 0.6 + confidence_avg * 0.4`
with `corrected_completion = (filled + len(corrected)) / total` (0 when
the schema is empty) and
`should_retry = overall_score < 0.8 and len(corrected) > 0`.
Note that `corrected_completion` counts every correction, including
improvements of already-filled low-confidence fields, and that
`overall_score` is not clamped. -/
def assessQuality (extracted : FieldMap) (confs : ConfMap)
    (formFields : List FormField) (sourceText : String) :
    Except Unit QualityAssessment :=
  let totalFields := formFields.length
  let filledFields := extracted.length
  let completionRate : ℚ :=
    if 0 < totalFields then (filledFields : ℚ) / (totalFields : ℚ) else 0
  let confidenceAvg : ℚ :=
    if confs.isEmpty then 0 else ((confs.map Prod.snd).sum) / (confs.length : ℚ)
  let m := missingLoop extracted sourceText formFields [] [] []
  match lowConfLoop extracted sourceText confs m.1 m.2.1 m.2.2 with
  | .error e => .error e
  | .ok (corr, iss, recs) =>
      let correctedCompletion : ℚ :=
        if 0 < totalFields then ((filledFields : ℚ) + (corr.length : ℚ)) / (totalFields : ℚ)
        else 0
      let overallScore := correctedCompletion * 0.6 + confidenceAvg * 0.4
      .ok ⟨overallScore, completionRate, confidenceAvg, iss, recs, corr,
           decide (overallScore < 0.8 ∧ 0 < corr.length)⟩

/-- The dictionary `QualityAssuranceAgent.execute` hands back to the
orchestrator: `success`, `should_retry`, `corrected_fields`. -/
structure QAOutcome where
  success : Bool
  shouldRetry : Bool
  correctedFields : FieldMap
deriving Repr, DecidableEq

/-- Shallow embedding of `QualityAssuranceAgent.execute`: a completed
assessment yields success with its retry flag and corrections; an
exception is caught and yields failure with no retry and no
corrections. -/
def qaExecute (confs : ConfMap) (formFields : List FormField)
    (sourceText : String) (extracted : FieldMap) : QAOutcome :=
  match assessQuality extracted confs formFields sourceText with
  | .ok a => ⟨true, a.shouldRetry, a.correctedFields⟩
  | .error _ => ⟨false, false, []⟩

/-! ## `AgenticFormFillerOrchestrator.process_form`, steps 2–3 -/

/-- One audit-trail entry of kind quality-improvement appended by the
orchestrator loop. -/
structure IterationRecord where
  iteration : Nat
  correctionsApplied : FieldMap
  qualityScore : ℚ
deriving Repr, DecidableEq

/-- The state returned by the improvement loop, plus a count of how
many times the quality-assurance agent was invoked (the number of
assessment passes). -/
structure LoopResult where
  data : FieldMap
  quality : ℚ
  records : List IterationRecord
  qaCalls : Nat
deriving Repr, DecidableEq

/-- Shallow embedding of the quality-improvement loop
`for iteration in range(2, max_iterations + 1)` of `process_form`,
parametric over the quality-assurance agent `qa` (the orchestrator
never branches on the agent's identity; instantiating `qa` with
`qaExecute confs formFields sourceText` gives the pattern-provider
system).  Per pass: stop when current quality is at least 0.9; invoke
`qa`; stop when it failed or does not ask for a retry; when it returned
corrections, merge them with `dict.update`, recompute quality with the
orchestrator's own score and append an audit record; a retry with an
empty correction dict changes nothing and proceeds to the next pass.
The fuel argument is exactly the remaining loop-bound budget. -/
def improveLoop (qa : FieldMap → QAOutcome) (confs : ConfMap)
    (formFields : List FormField) :
    Nat → Nat → FieldMap → ℚ → List IterationRecord → Nat → LoopResult
  | 0, _, data, q, recs, calls => ⟨data, q, recs, calls⟩
  | fuel + 1, iter, data, q, recs, calls =>
    if 0.9 ≤ q then ⟨data, q, recs, calls⟩
    else
      let out := qa data
      if !out.success || !out.shouldRetry then ⟨data, q, recs, calls + 1⟩
      else if out.correctedFields.isEmpty then
        improveLoop qa confs formFields fuel (iter + 1) data q recs (calls + 1)
      else
        let data₁ := pyUpdate data out.correctedFields
        let q₁ := orchestratorQualityScore data₁ confs formFields
        improveLoop qa confs formFields fuel (iter + 1) data₁ q₁
          (recs ++ [⟨iter, out.correctedFields, q₁⟩]) (calls + 1)

/-- Steps 2–3 of `process_form` after the initial extraction: the loop
runs for iterations 2 … max_iterations, i.e. at most
`max_iterations - 1` passes. -/
def processLoop (qa : FieldMap → QAOutcome) (confs : ConfMap)
    (formFields : List FormField) (maxIterations : Nat)
    (data0 : FieldMap) (q0 : ℚ) : LoopResult :=
  improveLoop qa confs formFields (maxIterations - 1) 2 data0 q0 [] 0

/-! ### The dict-identity (aliasing) model of the same loop

In Python, `current_data = extraction_result['extracted_data']` copies
a reference: both names denote one dict object, and
`current_data.update(corrected_fields)` mutates that shared object in
place.  To reason about which object is written we model a heap of dict
objects addressed by natural numbers. -/

/-- A heap of dict objects: address ↦ current contents. -/
def Heap : Type := List FieldMap

def readRef (h : Heap) (r : Nat) : FieldMap := (List.get? h r).getD []

def writeRef : Heap → Nat → FieldMap → Heap
  | [], _, _ => []
  | _ :: rest, 0, m => m :: rest
  | x :: rest, r + 1, m => x :: writeRef rest r m

/-- The improvement loop acting on the heap: `cur` is the address the
orchestrator's `current_data` reference points at, and the merge step
is an in-place `dict.update` on that object. -/
def improveLoopHeap (qa : FieldMap → QAOutcome) (confs : ConfMap)
    (formFields : List FormField) (cur : Nat) :
    Nat → Nat → Heap → ℚ → List IterationRecord →
    Heap × ℚ × List IterationRecord
  | 0, _, h, q, recs => (h, q, recs)
  | fuel + 1, iter, h, q, recs =>
    if 0.9 ≤ q then (h, q, recs)
    else
      let out := qa (readRef h cur)
      if !out.success || !out.shouldRetry then (h, q, recs)
      else if out.correctedFields.isEmpty then
        improveLoopHeap qa confs formFields cur fuel (iter + 1) h q recs
      else
        let h₁ := writeRef h cur (pyUpdate (readRef h cur) out.correctedFields)
        let q₁ := orchestratorQualityScore (readRef h₁ cur) confs formFields
        improveLoopHeap qa confs formFields cur fuel (iter + 1) h₁ q₁
          (recs ++ [⟨iter, out.correctedFields, q₁⟩])

/-- `process_form` with the dict identity made explicit: the extraction
outcome's `extracted_data` dict lives at address 0, and the assignment
`current_data = extraction_result['extracted_data']` copies the
address, so the loop's updates hit the outcome's own object. -/
def processHeap (qa : FieldMap → QAOutcome) (confs : ConfMap)
    (formFields : List FormField) (maxIterations : Nat)
    (data0 : FieldMap) (q0 : ℚ) : Heap × ℚ × List IterationRecord :=
  let outcomeRef : Nat := 0
  let currentRef : Nat := outcomeRef
  improveLoopHeap qa confs formFields currentRef (maxIterations - 1) 2 [data0] q0 []

/-- The contents of the extraction outcome's field-map object after the
whole improvement loop has run. -/
def outcomeFieldsAfterRun (qa : FieldMap → QAOutcome) (confs : ConfMap)
    (formFields : List FormField) (maxIterations : Nat)
    (data0 : FieldMap) (q0 : ℚ) : FieldMap :=
  readRef (processHeap qa confs formFields maxIterations data0 q0).1 0

/-! ## JSON values and `json.loads`

`_parse_ai_response` decodes a brace-delimited substring with
`json.loads`.  We embed JSON values and a recursive-descent parser for
the standard JSON grammar (objects, arrays, strings with escapes,
numbers, literals), with `json.loads`'s strict behaviour: surrounding
whitespace is allowed but trailing data is a decode error, duplicate
object keys keep the last value, raw control characters in strings are
rejected.  Numbers are exact rationals. -/

inductive Json where
  | null : Json
  | bool : Bool → Json
  | num : ℚ → Json
  | str : String → Json
  | arr : List Json → Json
  | obj : List (String × Json) → Json
deriving Repr

def jsonWs (c : Char) : Bool := c = ' ' || c = '\t' || c = '\n' || c = '\r'

def skipWs : List Char → List Char
  | [] => []
  | c :: rest => if jsonWs c then skipWs rest else c :: rest

def hexVal (c : Char) : Option Nat :=
  if '0' ≤ c ∧ c ≤ '9' then some (c.toNat - '0'.toNat)
  else if 'a' ≤ c ∧ c ≤ 'f' then some (c.toNat - 'a'.toNat + 10)
  else if 'A' ≤ c ∧ c ≤ 'F' then some (c.toNat - 'A'.toNat + 10)
  else none

/-- Parse the body of a JSON string after the opening quote, building
the accumulator in reverse. -/
def parseStrAux : List Char → List Char → Option (String × List Char)
  | [], _ => none
  | '"' :: rest, acc => some (String.mk acc.reverse, rest)
  | '\\' :: e :: rest, acc =>
    if e = '"' then parseStrAux rest ('"' :: acc)
    else if e = '\\' then parseStrAux rest ('\\' :: acc)
    else if e = '/' then parseStrAux rest ('/' :: acc)
    else if e = 'b' then parseStrAux rest ('\x08' :: acc)
    else if e = 'f' then parseStrAux rest ('\x0c' :: acc)
    else if e = 'n' then parseStrAux rest ('\n' :: acc)
    else if e = 'r' then parseStrAux rest ('\r' :: acc)
    else if e = 't' then parseStrAux rest ('\t' :: acc)
    else if e = 'u' then
      match rest with
      | h1 :: h2 :: h3 :: h4 :: rest₁ =>
        match hexVal h1, hexVal h2, hexVal h3, hexVal h4 with
        | some a, some b, some c, some d =>
            let n := ((a * 16 + b) * 16 + c) * 16 + d
            if n.isValidChar then parseStrAux rest₁ (Char.ofNat n :: acc)
            else parseStrAux rest₁ ('�' :: acc)
        | _, _, _, _ => none
      | _ => none
    else none
  | c :: rest, acc => if c.toNat < 32 then none else parseStrAux rest (c :: acc)

/-- JSON number grammar: optional minus, integer part without leading
zeros, optional fraction, optional exponent; the value is exact. -/
def parseJsonNumber (s : List Char) : Option (ℚ × List Char) :=
  let (neg, s₁) := match s with
    | '-' :: r => (true, r)
    | _ => (false, s)
  let (ip, s₂) := s₁.span Char.isDigit
  if ip.isEmpty then none
  else if 1 < ip.length ∧ ip.head? = some '0' then none
  else
    let intPart : ℚ := (natFromDigits ip : ℚ)
    let (frac, s₃) : ℚ × List Char :=
      match s₂ with
      | '.' :: r =>
        let (fd, r₁) := r.span Char.isDigit
        if fd.isEmpty then (0, s₂)
        else ((natFromDigits fd : ℚ) / ((10 : ℚ) ^ fd.length), r₁)
      | _ => (0, s₂)
    let fracBad := match s₂ with
      | '.' :: r => (r.span Char.isDigit).1.isEmpty
      | _ => false
    if fracBad then none
    else
      let base := intPart + frac
      let withSign := if neg then -base else base
      match s₃ with
      | 'e' :: r => parseExp withSign r
      | 'E' :: r => parseExp withSign r
      | _ => some (withSign, s₃)
where
  parseExp (v : ℚ) (r : List Char) : Option (ℚ × List Char) :=
    let (esign, r₁) := match r with
      | '+' :: t => (false, t)
      | '-' :: t => (true, t)
      | _ => (false, r)
    let (ed, r₂) := r₁.span Char.isDigit
    if ed.isEmpty then none
    else
      let e := natFromDigits ed
      some (if esign then v / ((10 : ℚ) ^ e) else v * ((10 : ℚ) ^ e), r₂)

mutual

/-- Recursive-descent JSON value parser; the fuel dominates the nesting
depth. -/
def parseJsonValue : Nat → List Char → Option (Json × List Char)
  | 0, _ => none
  | fuel + 1, s₀ =>
    match skipWs s₀ with
    | [] => none
    | c :: rest =>
      if c = '"' then (parseStrAux rest []).map (fun p => (Json.str p.1, p.2))
      else if c = '\x7b' then
        match skipWs rest with
        | '\x7d' :: r => some (Json.obj [], r)
        | s₁ => parseObjMembers fuel s₁ []
      else if c = '[' then
        match skipWs rest with
        | ']' :: r => some (Json.arr [], r)
        | s₁ => parseArrElems fuel s₁ []
      else if c = 't' then
        match rest with
        | 'r' :: 'u' :: 'e' :: r => some (Json.bool true, r)
        | _ => none
      else if c = 'f' then
        match rest with
        | 'a' :: 'l' :: 's' :: 'e' :: r => some (Json.bool false, r)
        | _ => none
      else if c = 'n' then
        match rest with
        | 'u' :: 'l' :: 'l' :: r => some (Json.null, r)
        | _ => none
      else (parseJsonNumber (c :: rest)).map (fun p => (Json.num p.1, p.2))

/-- Object members after the opening brace (duplicate keys keep the
last value, in Python's first-insertion position). -/
def parseObjMembers : Nat → List Char → List (String × Json) →
    Option (Json × List Char)
  | 0, _, _ => none
  | fuel + 1, s, acc =>
    match skipWs s with
    | '"' :: rest =>
      match parseStrAux rest [] with
      | none => none
      | some (key, s₁) =>
        match skipWs s₁ with
        | ':' :: s₂ =>
          match parseJsonValue fuel s₂ with
          | none => none
          | some (v, s₃) =>
            let acc₁ := pySet acc key v
            match skipWs s₃ with
            | ',' :: s₄ => parseObjMembers fuel s₄ acc₁
            | '\x7d' :: s₄ => some (Json.obj acc₁, s₄)
            | _ => none
        | _ => none
    | _ => none

/-- Array elements after the opening bracket. -/
def parseArrElems : Nat → List Char → List Json → Option (Json × List Char)
  | 0, _, _ => none
  | fuel + 1, s, acc =>
    match parseJsonValue fuel s with
    | none => none
    | some (v, s₁) =>
      match skipWs s₁ with
      | ',' :: s₂ => parseArrElems fuel s₂ (acc ++ [v])
      | ']' :: s₂ => some (Json.arr (acc ++ [v]), s₂)
      | _ => none

end

/-- Shallow embedding of `json.loads`: parse one value with generous
fuel and require only whitespace to remain. -/
def jsonLoads (s : String) : Option Json :=
  match parseJsonValue (s.length + 2) s.toList with
  | some (v, rest) => if (skipWs rest).isEmpty then some v else none
  | none => none

/-- Python truthiness of a decoded JSON value (`if extracted_data and
not confidence_scores:`). -/
def jsonTruthy : Json → Bool
  | .null => false
  | .bool b => b
  | .num q => decide (q ≠ 0)
  | .str s => decide (s ≠ "")
  | .arr xs => !xs.isEmpty
  | .obj kvs => !kvs.isEmpty

/-- Python `str.find(ch)`: index of the first occurrence, `-1` when
absent. -/
def pyFindAux : List Char → Char → Nat → Int
  | [], _, _ => -1
  | c :: rest, t, i => if c = t then (i : Int) else pyFindAux rest t (i + 1)

def pyFind (s : String) (c : Char) : Int := pyFindAux s.toList c 0

/-- Python `str.rfind(ch)`: index of the last occurrence, `-1` when
absent. -/
def pyRfindAux : List Char → Char → Nat → Int → Int
  | [], _, _, best => best
  | c :: rest, t, i, best =>
      pyRfindAux rest t (i + 1) (if c = t then (i : Int) else best)

def pyRfind (s : String) (c : Char) : Int := pyRfindAux s.toList c 0 (-1)

/-- Shallow embedding of `DataExtractionAgent._parse_ai_response`.  The
pair returned is `(extracted_data, confidence_scores)` as decoded JSON
values.  Every failure path — no brace pair, a JSON decode error, or a
decoded value of a shape on which the Python code would raise (a
non-object result, or a non-object truthy `extracted_data` reaching the
`.keys()` defaulting line) and be caught by the enclosing handler —
yields the empty pair `(\x7b\x7d, \x7b\x7d)`; the embedding is a total
function, modelling that no exception escapes.  When `extracted_data`
is a non-empty object and `confidence_scores` is falsy, each present
key defaults to confidence 0.8. -/
def parseAiResponse (responseText : String) : Json × Json :=
  let start := pyFind responseText '\x7b'
  let stop := pyRfind responseText '\x7d' + 1
  if 0 ≤ start ∧ start < stop then
    let jsonText := sliceStr responseText.toList start.toNat stop.toNat
    match jsonLoads jsonText with
    | none => (Json.obj [], Json.obj [])
    | some j =>
      match j with
      | .obj kvs =>
        let extractedData := (pyGet kvs "extracted_data").getD (Json.obj [])
        let confidenceScores := (pyGet kvs "confidence_scores").getD (Json.obj [])
        if jsonTruthy extractedData ∧ !jsonTruthy confidenceScores then
          match extractedData with
          | .obj ekvs =>
              (Json.obj ekvs, Json.obj (ekvs.map (fun p => (p.1, Json.num 0.8))))
          | _ => (Json.obj [], Json.obj [])
        else (extractedData, confidenceScores)
      | _ => (Json.obj [], Json.obj [])
  else (Json.obj [], Json.obj [])

/-- The orchestrator's recompute formula as the amended claim states it:
60 % completion rate plus 40 % mean confidence across the filled fields
(0 when none are filled), clamped to at most 1.0 — with no
high-confidence bonus term. -/
def specOrchestratorQuality (extracted : FieldMap) (confs : ConfMap)
    (formFields : List FormField) : ℚ :=
  let filled : ℚ := (extracted.length : ℚ)
  let completion : ℚ := filled / (formFields.length : ℚ)
  let meanConf : ℚ :=
    if extracted.length = 0 then 0 else ((confs.map Prod.snd).sum) / filled
  min (0.6 * completion + 0.4 * meanConf) 1

/-! ## Concrete data for the spec's scenarios -/

/-- Scenario C's schema: ten fields. -/
def scenarioCFields : List FormField :=
  [⟨"f1", "Text", ""⟩, ⟨"f2", "Text", ""⟩, ⟨"f3", "Text", ""⟩, ⟨"f4", "Text", ""⟩,
   ⟨"f5", "Text", ""⟩, ⟨"f6", "Text", ""⟩, ⟨"f7", "Text", ""⟩, ⟨"f8", "Text", ""⟩,
   ⟨"f9", "Text", ""⟩, ⟨"f10", "Text", ""⟩]

/-- Scenario C's extraction: six fields filled. -/
def scenarioCExtracted : FieldMap :=
  [("f1", "v1"), ("f2", "v2"), ("f3", "v3"), ("f4", "v4"), ("f5", "v5"), ("f6", "v6")]

/-- Scenario C's confidences: six entries averaging 0.7, none above 0.8. -/
def scenarioCConfs : ConfMap :=
  [("f1", 0.7), ("f2", 0.7), ("f3", 0.7), ("f4", 0.7), ("f5", 0.7), ("f6", 0.7)]

/-! ## Helper lemmas -/

theorem isEmpty_false_of_ne_nil {α : Type} {l : List α} (h : l ≠ []) :
    l.isEmpty = false := by
  cases l with
  | nil => exact absurd rfl h
  | cons a t => rfl

theorem length_eq_of_keys_eq {α β : Type} {d : List (String × α)} {c : List (String × β)}
    (h : d.map Prod.fst = c.map Prod.fst) : d.length = c.length := by
  have h₁ := congrArg List.length h
  simpa using h₁

/-- The two score formulas of `_calculate_quality_score` agree with the
spec formula once the confidence dict has exactly the filled fields'
keys. -/
theorem dataAgent_eq_specPattern (e : FieldMap) (c : ConfMap) (f : List FormField)
    (hf : f ≠ []) (hk : keysOf e = keysOf c) :
    dataAgentQualityScore e c f = specPatternQuality e c f := by
  have hlen : e.length = c.length := length_eq_of_keys_eq hk
  have hfne : f.isEmpty = false := isEmpty_false_of_ne_nil hf
  by_cases he : e = []
  · subst he
    have hc : c = [] := by
      apply List.length_eq_zero.mp
      simpa using hlen.symm
    subst hc
    simp [dataAgentQualityScore, specPatternQuality, hfne]
  · have hel : 0 < e.length := List.length_pos.mpr he
    have hc : c.isEmpty = false := by
      apply isEmpty_false_of_ne_nil
      intro hcn
      apply he
      apply List.length_eq_zero.mp
      rw [hlen, hcn]
      rfl
    have hmax : max ((e.length : ℚ)) 1 = (e.length : ℚ) := by
      apply max_eq_left
      exact_mod_cast hel
    have hne : ¬ e.length = 0 := by omega
    simp only [dataAgentQualityScore, specPatternQuality, hfne, hc, hmax,
      Bool.false_eq_true, if_false, if_pos hel, if_neg hne, ← hlen]
    congr 1
    ring

theorem orchestrator_eq_specOrchestrator (e : FieldMap) (c : ConfMap)
    (f : List FormField) (hf : f ≠ []) (hk : keysOf e = keysOf c) :
    orchestratorQualityScore e c f = specOrchestratorQuality e c f := by
  have hlen : e.length = c.length := length_eq_of_keys_eq hk
  have hfne : f.isEmpty = false := isEmpty_false_of_ne_nil hf
  by_cases he : e = []
  · subst he
    have hc : c = [] := by
      apply List.length_eq_zero.mp
      simpa using hlen.symm
    subst hc
    simp [orchestratorQualityScore, specOrchestratorQuality, hfne]
  · have hel : 0 < e.length := List.length_pos.mpr he
    have hc : c.isEmpty = false := by
      apply isEmpty_false_of_ne_nil
      intro hcn
      apply he
      apply List.length_eq_zero.mp
      rw [hlen, hcn]
      rfl
    have hne : ¬ e.length = 0 := by omega
    simp only [orchestratorQualityScore, specOrchestratorQuality, hfne, hc,
      Bool.false_eq_true, if_false, if_neg hne, ← hlen]
    congr 1
    ring

/-- Characterisation of a completed assessment's overall score: exactly
the unclamped blend of the corrected completion (counting every
correction) and the confidence average. -/
theorem assessQuality_ok_overall (e : FieldMap) (c : ConfMap) (f : List FormField)
    (src : String) (a : QualityAssessment)
    (h : assessQuality e c f src = .ok a) :
    a.overallScore =
      (if 0 < f.length then
          ((e.length : ℚ) + (a.correctedFields.length : ℚ)) / (f.length : ℚ)
        else 0) * 0.6 +
      (if c.isEmpty then 0 else ((c.map Prod.snd).sum) / (c.length : ℚ)) * 0.4 := by
  simp only [assessQuality] at h
  split at h
  · exact absurd h (by simp)
  · rename_i corr iss recs heq
    cases h
    rfl

/-- A completed assessment asks for a retry only when it produced at
least one correction. -/
theorem assessQuality_shouldRetry_corr (e : FieldMap) (c : ConfMap)
    (f : List FormField) (src : String) (a : QualityAssessment)
    (h : assessQuality e c f src = .ok a) (hr : a.shouldRetry = true) :
    a.correctedFields ≠ [] := by
  simp only [assessQuality] at h
  split at h
  · exact absurd h (by simp)
  · rename_i corr iss recs heq
    cases h
    simp only [decide_eq_true_eq] at hr
    intro hnil
    have hc2 : corr = [] := hnil
    rw [hc2] at hr
    simp at hr

/-- The claim C2's overall-score formula, written from the spec's words:
0.6 times the corrected completion rate — counting the already-filled
fields plus only those corrections that fill previously-missing fields,
over the total number of schema fields — plus 0.4 times the mean of the
supplied confidences. -/
def specC2OverallScore (extracted : FieldMap) (confs : ConfMap)
    (formFields : List FormField) (corrected : FieldMap) : ℚ :=
  let newlyFilled : ℚ :=
    ((corrected.filter (fun p => ¬ pyHasKey extracted p.1)).length : ℚ)
  0.6 * (((extracted.length : ℚ) + newlyFilled) / (formFields.length : ℚ)) +
  0.4 * (if confs.isEmpty then 0 else ((confs.map Prod.snd).sum) / (confs.length : ℚ))

/-! ## Claim theorems -/

/-- C1: the deterministic pattern strategy's quality score equals 0.4
times the completion rate plus 0.4 times the mean confidence across
filled fields (0 when none are filled) plus 0.2 times the fraction of
filled fields whose confidence strictly exceeds 0.8, clamped to at most
1.0 — stated for extraction results, whose confidence dict carries
exactly the filled fields' keys; and on scenario C (10 fields, 6 filled
at confidence 0.7, none above 0.8) the score is exactly 0.52. -/
theorem C1_pattern_quality_formula :
    (∀ (extracted : FieldMap) (confs : ConfMap) (formFields : List FormField),
        formFields ≠ [] → keysOf extracted = keysOf confs →
        dataAgentQualityScore extracted confs formFields =
          specPatternQuality extracted confs formFields) ∧
    dataAgentQualityScore scenarioCExtracted scenarioCConfs scenarioCFields = 0.52 := by
  constructor
  · intro e c f hf hk
    exact dataAgent_eq_specPattern e c f hf hk
  · decide

/-- Witness for C1 at a concrete input discharging both hypotheses. -/
theorem C1_pattern_quality_formula_witness :
    ([⟨"a", "Text", ""⟩] : List FormField) ≠ [] ∧
    keysOf ([("a", "x")] : FieldMap) = keysOf ([("a", 0.7)] : ConfMap) ∧
    dataAgentQualityScore [("a", "x")] [("a", 0.7)] [⟨"a", "Text", ""⟩] =
      specPatternQuality [("a", "x")] [("a", 0.7)] [⟨"a", "Text", ""⟩] :=
  ⟨by decide, rfl,
    C1_pattern_quality_formula.1 [("a", "x")] [("a", 0.7)] [⟨"a", "Text", ""⟩]
      (by decide) rfl⟩

/-- C2 counterexample: on a one-field schema whose single field is
filled with a low-confidence value that the assessor improves, the code
counts that correction in the corrected completion even though it does
not fill a previously-missing field: the returned overall score is 1.4
while the claim's formula gives 0.8. -/
theorem C2_counterexample :
    ((assessQuality [("case_number", "OLD")] [("case_number", 0.5)]
        [⟨"case_number", "Text", ""⟩] "Case Number: ABC-123").map
      (fun a => (a.overallScore,
        specC2OverallScore [("case_number", "OLD")] [("case_number", 0.5)]
          [⟨"case_number", "Text", ""⟩] a.correctedFields))) =
      Except.ok ((1.4 : ℚ), (0.8 : ℚ)) ∧ (1.4 : ℚ) ≠ (0.8 : ℚ) := by
  constructor
  · decide
  · decide

/-- C2 amended: the assessor's overall score equals 0.6 times the
corrected completion rate where corrected completion counts the filled
fields plus ALL corrections — including improvements that overwrite
already-filled low-confidence fields — divided by the total number of
schema fields (0 when the schema is empty), plus 0.4 times the mean of
the supplied confidences; the result is not clamped. -/
theorem C2_amended_overall_formula :
    ∀ (extracted : FieldMap) (confs : ConfMap) (formFields : List FormField)
      (src : String) (a : QualityAssessment),
      assessQuality extracted confs formFields src = .ok a →
      a.overallScore =
        (if 0 < formFields.length then
            ((extracted.length : ℚ) + (a.correctedFields.length : ℚ)) /
              (formFields.length : ℚ)
          else 0) * 0.6 +
        (if confs.isEmpty then 0
          else ((confs.map Prod.snd).sum) / (confs.length : ℚ)) * 0.4 := by
  intro e c f src a h
  exact assessQuality_ok_overall e c f src a h

/-- Witness for C2's amended theorem on the empty assessment. -/
theorem C2_amended_overall_formula_witness :
    assessQuality [] [] [] "" =
      .ok (⟨0 * 0.6 + 0 * 0.4, 0, 0, [], [], [], false⟩ : QualityAssessment) ∧
    (⟨0 * 0.6 + 0 * 0.4, 0, 0, [], [], [], false⟩ : QualityAssessment).overallScore =
      (if 0 < ([] : List FormField).length then
          ((([] : FieldMap).length : ℚ) +
            (((⟨0 * 0.6 + 0 * 0.4, 0, 0, [], [], [], false⟩ :
                QualityAssessment).correctedFields.length : ℚ))) /
            (([] : List FormField).length : ℚ)
        else 0) * 0.6 +
      (if ([] : ConfMap).isEmpty then 0
        else ((([] : ConfMap).map Prod.snd).sum) / ((([] : ConfMap)).length : ℚ)) * 0.4 :=
  ⟨by decide, C2_amended_overall_formula [] [] [] "" _ (by decide)⟩

/-- C3 counterexample: the assessor's overall score is not clamped to
[0,1] — on the C2 input it returns 1.4, which exceeds 1. -/
theorem C3_counterexample :
    ((assessQuality [("case_number", "OLD")] [("case_number", 0.5)]
        [⟨"case_number", "Text", ""⟩] "Case Number: ABC-123").map
      QualityAssessment.overallScore) = Except.ok (1.4 : ℚ) ∧
    ¬ ((1.4 : ℚ) ≤ 1) := by
  constructor
  · decide
  · decide

/-- C3 amended: the extraction quality score is always at most 1, is
nonnegative whenever the supplied confidences are nonnegative, and is 0
on an empty schema; the assessor's overall score is nonnegative under
nonnegative confidences but carries no upper clamp (the counterexample
shows it exceeding 1). -/
theorem C3_amended_bounds :
    (∀ (e : FieldMap) (c : ConfMap) (f : List FormField),
        dataAgentQualityScore e c f ≤ 1) ∧
    (∀ (e : FieldMap) (c : ConfMap) (f : List FormField),
        (∀ p ∈ c, 0 ≤ p.2) → 0 ≤ dataAgentQualityScore e c f) ∧
    (∀ (e : FieldMap) (c : ConfMap), dataAgentQualityScore e c [] = 0) ∧
    (∀ (e : FieldMap) (c : ConfMap) (f : List FormField) (src : String)
        (a : QualityAssessment),
        assessQuality e c f src = .ok a → (∀ p ∈ c, 0 ≤ p.2) →
        0 ≤ a.overallScore) := by
  have havg : ∀ (c : ConfMap), (∀ p ∈ c, 0 ≤ p.2) →
      0 ≤ (if c.isEmpty then 0 else ((c.map Prod.snd).sum) / (c.length : ℚ)) := by
    intro c hc
    split
    · exact le_refl 0
    · apply div_nonneg
      · apply List.sum_nonneg
        intro x hx
        rcases List.mem_map.mp hx with ⟨p, hp, hpx⟩
        rw [← hpx]
        exact hc p hp
      · exact Nat.cast_nonneg _
  refine ⟨?_, ?_, ?_, ?_⟩
  · intro e c f
    unfold dataAgentQualityScore
    split
    · norm_num
    · exact min_le_right _ _
  · intro e c f hc
    unfold dataAgentQualityScore
    split
    · exact le_refl 0
    · refine le_min ?_ (by norm_num)
      have h1 : (0 : ℚ) ≤ (e.length : ℚ) / (f.length : ℚ) :=
        div_nonneg (Nat.cast_nonneg _) (Nat.cast_nonneg _)
      have h2 := havg c hc
      have h3 : (0 : ℚ) ≤
          (if 0 < e.length then
            (((c.filter (fun p => (0.8 : ℚ) < p.2)).length : ℚ)) /
              max ((e.length : ℚ)) 1 else 0) := by
        split
        · apply div_nonneg (Nat.cast_nonneg _)
          exact le_trans (by norm_num) (le_max_right _ _)
        · exact le_refl 0
      have := add_nonneg (add_nonneg (mul_nonneg h1 (by norm_num : (0:ℚ) ≤ 0.4))
        (mul_nonneg h2 (by norm_num : (0:ℚ) ≤ 0.4)))
        (mul_nonneg h3 (by norm_num : (0:ℚ) ≤ 0.2))
      simpa using this
  · intro e c
    simp [dataAgentQualityScore]
  · intro e c f src a h hc
    rw [assessQuality_ok_overall e c f src a h]
    have h2 := havg c hc
    have h1 : (0 : ℚ) ≤
        (if 0 < f.length then
          ((e.length : ℚ) + (a.correctedFields.length : ℚ)) / (f.length : ℚ)
        else 0) := by
      split
      · apply div_nonneg _ (Nat.cast_nonneg _)
        exact add_nonneg (Nat.cast_nonneg _) (Nat.cast_nonneg _)
      · exact le_refl 0
    have := add_nonneg (mul_nonneg h1 (by norm_num : (0:ℚ) ≤ 0.6))
      (mul_nonneg h2 (by norm_num : (0:ℚ) ≤ 0.4))
    simpa using this

/-- Witness for C3's amended theorem, discharging the nonnegative
confidence hypotheses and the assessment hypothesis concretely. -/
theorem C3_amended_bounds_witness :
    (0 : ℚ) ≤ dataAgentQualityScore [("a", "x")] [("a", 0.7)] [⟨"a", "Text", ""⟩] ∧
    (0 : ℚ) ≤ (⟨0 * 0.6 + 0 * 0.4, 0, 0, [], [], [], false⟩ :
      QualityAssessment).overallScore :=
  ⟨C3_amended_bounds.2.1 [("a", "x")] [("a", 0.7)] [⟨"a", "Text", ""⟩]
      (by
        intro p hp
        rw [List.mem_singleton] at hp
        rw [hp]
        norm_num),
   C3_amended_bounds.2.2.2 [] [] [] "" _ (by decide) (by intro p hp; cases hp)⟩

/-- C4 counterexample: after a correction merge the orchestrator's
recomputed score does NOT equal the pattern strategy's weighted formula:
with two schema fields, one filled at confidence 0.5, the orchestrator
returns 0.5 while the extraction agent's 40/40/20 formula gives 0.4. -/
theorem C4_counterexample :
    orchestratorQualityScore [("a", "x")] [("a", 0.5)]
        [⟨"f1", "Text", ""⟩, ⟨"f2", "Text", ""⟩] = (0.5 : ℚ) ∧
    dataAgentQualityScore [("a", "x")] [("a", 0.5)]
        [⟨"f1", "Text", ""⟩, ⟨"f2", "Text", ""⟩] = (0.4 : ℚ) ∧
    (0.5 : ℚ) ≠ (0.4 : ℚ) := by
  refine ⟨by decide, by decide, by decide⟩

/-- C4 amended: the orchestrator's recomputed aggregate quality score
uses its own formula — 60 % completion rate plus 40 % mean confidence
across filled fields, clamped to at most 1.0 — which omits the pattern
strategy's 20 % high-confidence bonus term and weighs completion at 60 %
rather than 40 %. -/
theorem C4_amended_orchestrator_formula :
    ∀ (extracted : FieldMap) (confs : ConfMap) (formFields : List FormField),
      formFields ≠ [] → keysOf extracted = keysOf confs →
      orchestratorQualityScore extracted confs formFields =
        specOrchestratorQuality extracted confs formFields := by
  intro e c f hf hk
  exact orchestrator_eq_specOrchestrator e c f hf hk

/-- Witness for C4's amended theorem at a concrete input. -/
theorem C4_amended_orchestrator_formula_witness :
    ([⟨"b", "Text", ""⟩] : List FormField) ≠ [] ∧
    orchestratorQualityScore [("b", "y")] [("b", 0.5)] [⟨"b", "Text", ""⟩] =
      specOrchestratorQuality [("b", "y")] [("b", 0.5)] [⟨"b", "Text", ""⟩] :=
  ⟨by decide,
    C4_amended_orchestrator_formula [("b", "y")] [("b", 0.5)] [⟨"b", "Text", ""⟩]
      (by decide) rfl⟩

/-! ## Lemmas about the orchestrator loop and dict merging -/

theorem keys_pySet_mem {α : Type} (m : List (String × α)) (k k' : String) (v : α)
    (h : k ∈ keysOf m) : k ∈ keysOf (pySet m k' v) := by
  induction m with
  | nil => cases h
  | cons p rest ih =>
    obtain ⟨a, b⟩ := p
    simp only [pySet]
    split
    · rename_i heq
      simp only [keysOf, List.map_cons, List.mem_cons] at h ⊢
      rcases h with h | h
      · left; exact h.trans heq
      · right; exact h
    · simp only [keysOf, List.map_cons, List.mem_cons] at h ⊢
      rcases h with h | h
      · left; exact h
      · right; exact ih h

theorem keys_pyUpdate_mem {α : Type} (other m : List (String × α)) (k : String)
    (h : k ∈ keysOf m) : k ∈ keysOf (pyUpdate m other) := by
  induction other generalizing m with
  | nil => exact h
  | cons p rest ih =>
    simp only [pyUpdate, List.foldl_cons] at ih ⊢
    exact ih (pySet m p.1 p.2) (keys_pySet_mem m k p.1 p.2 h)

/-- C5: for every maximum-iteration bound K ≥ 1 the orchestrator
executes at most K extraction/assessment passes (one initial extraction
plus at most K−1 assessments) and the loop — a total function here —
always terminates; a quality of at least 0.9 stops it before assessing;
an assessment that failed or did not ask for a retry stops it on that
pass; and with the real quality-assurance agent, an assessment
producing zero corrections stops it on that same pass regardless of
remaining budget (its `should_retry` requires at least one
correction). -/
theorem C5_loop_termination :
    (∀ (qa : FieldMap → QAOutcome) (confs : ConfMap) (ff : List FormField)
        (fuel iter : Nat) (data : FieldMap) (q : ℚ)
        (recs : List IterationRecord) (calls : Nat),
        (improveLoop qa confs ff fuel iter data q recs calls).qaCalls ≤ calls + fuel) ∧
    (∀ (qa : FieldMap → QAOutcome) (confs : ConfMap) (ff : List FormField)
        (K : Nat) (data : FieldMap) (q : ℚ), 1 ≤ K →
        1 + (processLoop qa confs ff K data q).qaCalls ≤ K) ∧
    (∀ (qa : FieldMap → QAOutcome) (confs : ConfMap) (ff : List FormField)
        (fuel iter : Nat) (data : FieldMap) (q : ℚ)
        (recs : List IterationRecord) (calls : Nat), (0.9 : ℚ) ≤ q →
        improveLoop qa confs ff fuel iter data q recs calls = ⟨data, q, recs, calls⟩) ∧
    (∀ (qa : FieldMap → QAOutcome) (confs : ConfMap) (ff : List FormField)
        (fuel iter : Nat) (data : FieldMap) (q : ℚ)
        (recs : List IterationRecord) (calls : Nat),
        ((qa data).success = false ∨ (qa data).shouldRetry = false) → q < 0.9 →
        improveLoop qa confs ff (fuel + 1) iter data q recs calls =
          ⟨data, q, recs, calls + 1⟩) ∧
    (∀ (confs : ConfMap) (ff : List FormField) (src : String)
        (fuel iter : Nat) (data : FieldMap) (q : ℚ)
        (recs : List IterationRecord) (calls : Nat),
        (∀ a, assessQuality data confs ff src = .ok a → a.correctedFields = []) →
        improveLoop (qaExecute confs ff src) confs ff (fuel + 1) iter data q recs calls =
          ⟨data, q, recs, if (0.9 : ℚ) ≤ q then calls else calls + 1⟩) := by
  have hbound : ∀ (qa : FieldMap → QAOutcome) (confs : ConfMap) (ff : List FormField)
      (fuel iter : Nat) (data : FieldMap) (q : ℚ)
      (recs : List IterationRecord) (calls : Nat),
      (improveLoop qa confs ff fuel iter data q recs calls).qaCalls ≤ calls + fuel := by
    intro qa confs ff fuel
    induction fuel with
    | zero =>
      intro iter data q recs calls
      simp [improveLoop]
    | succ n ih =>
      intro iter data q recs calls
      rw [improveLoop]
      by_cases hq : (0.9 : ℚ) ≤ q
      · rw [if_pos hq]; simp
      · rw [if_neg hq]
        by_cases hs : (!(qa data).success || !(qa data).shouldRetry) = true
        · rw [if_pos hs]; simp
        · rw [if_neg hs]
          by_cases hc : (qa data).correctedFields.isEmpty = true
          · rw [if_pos hc]
            exact le_trans (ih (iter + 1) data q recs (calls + 1)) (by omega)
          · rw [if_neg hc]
            exact le_trans (ih (iter + 1) _ _ _ (calls + 1)) (by omega)
  have hstop : ∀ (qa : FieldMap → QAOutcome) (confs : ConfMap) (ff : List FormField)
      (fuel iter : Nat) (data : FieldMap) (q : ℚ)
      (recs : List IterationRecord) (calls : Nat),
      ((qa data).success = false ∨ (qa data).shouldRetry = false) → q < 0.9 →
      improveLoop qa confs ff (fuel + 1) iter data q recs calls =
        ⟨data, q, recs, calls + 1⟩ := by
    intro qa confs ff fuel iter data q recs calls hor hq
    rw [improveLoop, if_neg (not_le.mpr hq)]
    have hs : (!(qa data).success || !(qa data).shouldRetry) = true := by
      rcases hor with h | h
      · rw [h]; rfl
      · rw [h]; simp
    rw [if_pos hs]
  refine ⟨hbound, ?_, ?_, hstop, ?_⟩
  · intro qa confs ff K data q hK
    have h := hbound qa confs ff (K - 1) 2 data q [] 0
    have h2 : (processLoop qa confs ff K data q).qaCalls ≤ K - 1 := by
      simpa [processLoop] using h
    omega
  · intro qa confs ff fuel iter data q recs calls hq
    cases fuel with
    | zero => rfl
    | succ n => rw [improveLoop, if_pos hq]
  · intro confs ff src fuel iter data q recs calls hcorr
    by_cases hq : (0.9 : ℚ) ≤ q
    · rw [improveLoop, if_pos hq, if_pos hq]
    · rw [if_neg hq]
      cases hA : assessQuality data confs ff src with
      | error e =>
        apply hstop
        · left
          simp [qaExecute, hA]
        · exact not_le.mp hq
      | ok a =>
        apply hstop
        · right
          have hnil : a.correctedFields = [] := hcorr a hA
          simp only [qaExecute, hA]
          by_cases hr : a.shouldRetry = true
          · exact absurd hnil (assessQuality_shouldRetry_corr data confs ff src a hA hr)
          · simpa using hr
        · exact not_le.mp hq

/-- A closed instance of C5: with the pattern quality-assurance agent
on an input whose assessment yields no corrections, the loop stops on
that very pass (here with 9 passes of remaining budget), and the
iteration bound holds. -/
theorem C5_loop_termination_witness :
    (∀ a, assessQuality [("a", "v")] [] [⟨"a", "Text", ""⟩] "" = .ok a →
        a.correctedFields = []) ∧
    improveLoop (qaExecute [] [⟨"a", "Text", ""⟩] "") [] [⟨"a", "Text", ""⟩]
        10 2 [("a", "v")] 0 [] 0 =
      ⟨[("a", "v")], 0, [], if (0.9 : ℚ) ≤ 0 then 0 else 0 + 1⟩ := by
  have h : ∀ a, assessQuality [("a", "v")] [] [⟨"a", "Text", ""⟩] "" = .ok a →
      a.correctedFields = [] := by
    intro a ha
    have : assessQuality [("a", "v")] [] [⟨"a", "Text", ""⟩] "" =
        .ok (⟨(1 + 0) / 1 * 0.6 + 0 * 0.4, 1 / 1, 0, [], [], [],
          decide ((1 + 0) / 1 * 0.6 + 0 * 0.4 < (0.8 : ℚ) ∧ 0 < (0 : ℕ))⟩ :
            QualityAssessment) := by decide
    rw [this] at ha
    cases ha
    rfl
  exact ⟨h, C5_loop_termination.2.2.2.2 [] [⟨"a", "Text", ""⟩] "" 9 2
    [("a", "v")] 0 [] 0 h⟩

/-- C6: merging `corrected_fields` into the field map with
`dict.update` only adds new keys or overwrites existing values — every
key present before a quality-improvement pass (indeed before any number
of passes) is still present afterwards. -/
theorem C6_merge_monotonic :
    (∀ (data corr : FieldMap) (k : String),
        k ∈ keysOf data → k ∈ keysOf (pyUpdate data corr)) ∧
    (∀ (qa : FieldMap → QAOutcome) (confs : ConfMap) (ff : List FormField)
        (fuel iter : Nat) (data : FieldMap) (q : ℚ)
        (recs : List IterationRecord) (calls : Nat) (k : String),
        k ∈ keysOf data →
        k ∈ keysOf (improveLoop qa confs ff fuel iter data q recs calls).data) := by
  constructor
  · intro data corr k h
    exact keys_pyUpdate_mem corr data k h
  · intro qa confs ff fuel
    induction fuel with
    | zero =>
      intro iter data q recs calls k h
      simpa [improveLoop] using h
    | succ n ih =>
      intro iter data q recs calls k h
      rw [improveLoop]
      by_cases hq : (0.9 : ℚ) ≤ q
      · rw [if_pos hq]; exact h
      · rw [if_neg hq]
        by_cases hs : (!(qa data).success || !(qa data).shouldRetry) = true
        · rw [if_pos hs]; exact h
        · rw [if_neg hs]
          by_cases hc : (qa data).correctedFields.isEmpty = true
          · rw [if_pos hc]
            exact ih (iter + 1) data q recs (calls + 1) k h
          · rw [if_neg hc]
            exact ih (iter + 1) _ _ _ (calls + 1) k
              (keys_pyUpdate_mem (qa data).correctedFields data k h)

/-- A closed instance of C6: the key of a filled field survives a merge
that overwrites it and adds another key, and survives a whole loop. -/
theorem C6_merge_monotonic_witness :
    "a" ∈ keysOf ([("a", "x")] : FieldMap) ∧
    "a" ∈ keysOf (pyUpdate ([("a", "x")] : FieldMap) [("a", "y"), ("b", "z")]) :=
  ⟨by decide, C6_merge_monotonic.1 [("a", "x")] [("a", "y"), ("b", "z")] "a" (by decide)⟩

/-- C7: scenario A — a corpus containing "Case Number: 24STFL00615"
with a schema field `case_number` yields value "24STFL00615" at
confidence 0.8 — and scenario B — a corpus containing
"Phone: 555-123-4567" with field `contact_phone` yields the phone match
reassembled from its three capture groups as "(555) 123-4567" at
confidence 0.8, while the case category took its first capturing group
verbatim. -/
theorem C7_pattern_scenarios :
    extractWithPatterns "Case Number: 24STFL00615" [⟨"case_number", "Text", ""⟩] =
      ([("case_number", "24STFL00615")], [("case_number", 0.8)]) ∧
    extractWithPatterns "Phone: 555-123-4567" [⟨"contact_phone", "Text", ""⟩] =
      ([("contact_phone", "(555) 123-4567")], [("contact_phone", 0.8)]) := by
  exact ⟨by decide, by decide⟩

/-- C8: the response parser locates the first opening brace and the
last closing brace; with no such pair (scenario D, and in general), or
when the enclosed substring fails to decode, it returns the empty
outcome rather than raising; and a decoded object with a non-empty
extracted-values object but no confidence object defaults every present
field's confidence to 0.8. -/
theorem C8_parse_ai_response :
    (parseAiResponse "The response contains no braces at all" =
      (Json.obj [], Json.obj [])) ∧
    (∀ s : String,
        ¬ (0 ≤ pyFind s '\x7b' ∧ pyFind s '\x7b' < pyRfind s '\x7d' + 1) →
        parseAiResponse s = (Json.obj [], Json.obj [])) ∧
    (∀ s : String,
        (0 ≤ pyFind s '\x7b' ∧ pyFind s '\x7b' < pyRfind s '\x7d' + 1) →
        jsonLoads (sliceStr s.toList (pyFind s '\x7b').toNat
          (pyRfind s '\x7d' + 1).toNat) = none →
        parseAiResponse s = (Json.obj [], Json.obj [])) ∧
    (∀ (s : String) (kvs ekvs : List (String × Json)),
        (0 ≤ pyFind s '\x7b' ∧ pyFind s '\x7b' < pyRfind s '\x7d' + 1) →
        jsonLoads (sliceStr s.toList (pyFind s '\x7b').toNat
          (pyRfind s '\x7d' + 1).toNat) = some (Json.obj kvs) →
        pyGet kvs "extracted_data" = some (Json.obj ekvs) → ekvs ≠ [] →
        pyGet kvs "confidence_scores" = none →
        parseAiResponse s =
          (Json.obj ekvs, Json.obj (ekvs.map (fun p => (p.1, Json.num 0.8))))) := by
  refine ⟨rfl, ?_, ?_, ?_⟩
  · intro s h
    simp only [parseAiResponse]
    rw [if_neg h]
  · intro s h hl
    simp only [parseAiResponse]
    rw [if_pos h, hl]
  · intro s kvs ekvs h hl hed hne hcs
    simp only [parseAiResponse]
    rw [if_pos h, hl]
    simp only [hed, hcs, Option.getD_some, Option.getD_none]
    have htr : jsonTruthy (Json.obj ekvs) = true := by
      simp [jsonTruthy, isEmpty_false_of_ne_nil hne]
    have hcond : jsonTruthy (Json.obj ekvs) = true ∧
        (!jsonTruthy (Json.obj ([] : List (String × Json)))) = true := ⟨htr, rfl⟩
    rw [if_pos hcond]

/-- Witnesses for C8's conditional parts at concrete response strings:
a mismatched brace pair, an undecodable brace pair, and a decodable
object without a confidence object. -/
theorem C8_parse_ai_response_witness :
    parseAiResponse "mismatched \x7d then \x7b only" = (Json.obj [], Json.obj []) ∧
    parseAiResponse "\x7bnot json\x7d" = (Json.obj [], Json.obj []) ∧
    parseAiResponse "xx \x7b\"extracted_data\": \x7b\"a\": \"1\"\x7d\x7d yy" =
      (Json.obj [("a", Json.str "1")], Json.obj [("a", Json.num 0.8)]) :=
  ⟨C8_parse_ai_response.2.1 "mismatched \x7d then \x7b only" (by decide),
   C8_parse_ai_response.2.2.1 "\x7bnot json\x7d" (by decide) rfl,
   C8_parse_ai_response.2.2.2 "xx \x7b\"extracted_data\": \x7b\"a\": \"1\"\x7d\x7d yy"
     [("extracted_data", Json.obj [("a", Json.str "1")])] [("a", Json.str "1")]
     (by decide) rfl rfl (by simp) rfl⟩

/-- C9 counterexample: running the loop with the pattern
quality-assurance agent on a two-field schema whose corpus supplies the
missing case number, the extraction outcome's own field map — initially
empty — afterwards holds the merged correction: it was edited in place
through the `current_data` alias, so it is not unchanged. -/
theorem C9_counterexample :
    outcomeFieldsAfterRun
        (qaExecute [] [⟨"case_number", "Text", ""⟩, ⟨"zzz", "Text", ""⟩]
          "Case Number: ABC-123")
        [] [⟨"case_number", "Text", ""⟩, ⟨"zzz", "Text", ""⟩] 3 [] 0 =
      [("case_number", "ABC-123")] ∧
    ([("case_number", "ABC-123")] : FieldMap) ≠ ([] : FieldMap) := by
  exact ⟨by decide, by decide⟩

/-- The heap model agrees with the functional loop: because
`current_data` aliases the outcome's dict, the outcome object's
contents after the loop are exactly the loop's final merged map. -/
theorem improveLoopHeap_sim (qa : FieldMap → QAOutcome) (confs : ConfMap)
    (ff : List FormField) :
    ∀ (fuel iter : Nat) (data : FieldMap) (q : ℚ)
      (recs : List IterationRecord) (calls : Nat),
      readRef (improveLoopHeap qa confs ff 0 fuel iter [data] q recs).1 0 =
        (improveLoop qa confs ff fuel iter data q recs calls).data := by
  intro fuel
  induction fuel with
  | zero =>
    intro iter data q recs calls
    rfl
  | succ n ih =>
    intro iter data q recs calls
    rw [improveLoopHeap, improveLoop]
    by_cases hq : (0.9 : ℚ) ≤ q
    · rw [if_pos hq, if_pos hq]
      rfl
    · rw [if_neg hq, if_neg hq]
      have hread : readRef [data] 0 = data := rfl
      rw [hread]
      by_cases hs : (!(qa data).success || !(qa data).shouldRetry) = true
      · rw [if_pos hs, if_pos hs]
        rfl
      · rw [if_neg hs, if_neg hs]
        by_cases hc : (qa data).correctedFields.isEmpty = true
        · rw [if_pos hc, if_pos hc]
          exact ih (iter + 1) data q recs (calls + 1)
        · rw [if_neg hc, if_neg hc]
          exact ih (iter + 1) (pyUpdate data (qa data).correctedFields) _ _ (calls + 1)

/-- C9 amended: the orchestrator does NOT build a fresh merged map —
`current_data` is the extraction outcome's own dict and `dict.update`
edits it in place — so after the run the outcome's field map equals the
loop's final merged map (and therefore differs from its original
contents whenever some pass applied a correction that changed it, as
the counterexample shows). -/
theorem C9_amended_alias_semantics :
    ∀ (qa : FieldMap → QAOutcome) (confs : ConfMap) (ff : List FormField)
      (K : Nat) (data0 : FieldMap) (q0 : ℚ),
      outcomeFieldsAfterRun qa confs ff K data0 q0 =
        (processLoop qa confs ff K data0 q0).data := by
  intro qa confs ff K data0 q0
  exact improveLoopHeap_sim qa confs ff (K - 1) 2 data0 q0 [] 0

/-! ## Lemmas for the pattern strategy's map invariants -/

theorem extractField_conf (text : List Char) (f : FormField) (v : String) (conf : ℚ)
    (h : extractField text f = some (v, conf)) : conf = 0.8 ∨ conf = 0.6 := by
  simp only [extractField] at h
  cases htc : tryCategories text (pyLowerChars f.name.toList)
      (pyLowerChars f.altText.toList) patternTable with
  | some w =>
    rw [htc] at h
    cases h
    left
    rfl
  | none =>
    rw [htc] at h
    cases hfb : fallbackPhrase text (searchTermsFor f) with
    | some w =>
      rw [hfb] at h
      cases h
      right
      rfl
    | none =>
      rw [hfb] at h
      cases h

theorem keysOf_pySet_congr {α β : Type} (d : List (String × α)) :
    ∀ (c : List (String × β)), keysOf d = keysOf c →
      ∀ (k : String) (v : α) (w : β),
        keysOf (pySet d k v) = keysOf (pySet c k w) := by
  induction d with
  | nil =>
    intro c hk k v w
    have hc : c = [] := by
      cases c with
      | nil => rfl
      | cons p r => simp [keysOf] at hk
    subst hc
    rfl
  | cons p rest ih =>
    intro c hk k v w
    cases c with
    | nil => simp [keysOf] at hk
    | cons pc cr =>
      obtain ⟨a, b⟩ := p
      obtain ⟨ac, bc⟩ := pc
      simp only [keysOf, List.map_cons, List.cons.injEq] at hk
      obtain ⟨h1, h2⟩ := hk
      simp only [pySet]
      by_cases heq : a = k
      · rw [if_pos heq, if_pos (h1 ▸ heq)]
        simp only [keysOf, List.map_cons]
        rw [h2]
      · rw [if_neg heq, if_neg (h1 ▸ heq)]
        simp only [keysOf, List.map_cons]
        rw [h1]
        have := ih cr h2 k v w
        simp only [keysOf] at this
        rw [this]

theorem pySet_values_prop {α : Type} (P : α → Prop) :
    ∀ (m : List (String × α)) (k : String) (v : α),
      (∀ p ∈ m, P p.2) → P v → ∀ p ∈ pySet m k v, P p.2 := by
  intro m
  induction m with
  | nil =>
    intro k v _ hv p hp
    simp only [pySet, List.mem_singleton] at hp
    rw [hp]
    exact hv
  | cons q rest ih =>
    intro k v hm hv p hp
    obtain ⟨a, b⟩ := q
    simp only [pySet] at hp
    by_cases heq : a = k
    · rw [if_pos heq] at hp
      rcases List.mem_cons.mp hp with h | h
      · rw [h]; exact hv
      · exact hm p (List.mem_cons_of_mem _ h)
    · rw [if_neg heq] at hp
      rcases List.mem_cons.mp hp with h | h
      · rw [h]; exact hm (a, b) (List.mem_cons_self _ _)
      · exact ih k v (fun r hr => hm r (List.mem_cons_of_mem _ hr)) hv p h

theorem extractLoop_inv (text : List Char) :
    ∀ (fs : List FormField) (d : FieldMap) (c : ConfMap),
      keysOf d = keysOf c → (∀ p ∈ c, p.2 = 0.8 ∨ p.2 = 0.6) →
      keysOf (extractLoop text fs d c).1 = keysOf (extractLoop text fs d c).2 ∧
      ∀ p ∈ (extractLoop text fs d c).2, p.2 = 0.8 ∨ p.2 = 0.6 := by
  intro fs
  induction fs with
  | nil =>
    intro d c h1 h2
    exact ⟨h1, h2⟩
  | cons f rest ih =>
    intro d c h1 h2
    rw [extractLoop]
    cases hef : extractField text f with
    | none => exact ih d c h1 h2
    | some vc =>
      obtain ⟨v, conf⟩ := vc
      have hconf := extractField_conf text f v conf hef
      exact ih (pySet d f.name v) (pySet c f.name conf)
        (keysOf_pySet_congr d c h1 f.name v conf)
        (pySet_values_prop (fun x => x = 0.8 ∨ x = 0.6) c f.name conf h2 hconf)

/-- C10: for every corpus and schema, the pattern strategy's field map
and confidence map have exactly the same key list, and every confidence
it ever assigns is exactly 0.8 (category match) or exactly 0.6 (phrase
fallback). -/
theorem C10_pattern_strategy_invariants :
    ∀ (text : String) (formFields : List FormField),
      keysOf (extractWithPatterns text formFields).1 =
        keysOf (extractWithPatterns text formFields).2 ∧
      ∀ p ∈ (extractWithPatterns text formFields).2, p.2 = 0.8 ∨ p.2 = 0.6 := by
  intro text ff
  exact extractLoop_inv text.toList ff [] [] rfl (by intro p hp; cases hp)

/-- A closed instance of C10 on scenario A's corpus. -/
theorem C10_pattern_strategy_invariants_witness :
    ("case_number", (0.8 : ℚ)) ∈
      (extractWithPatterns "Case Number: 24STFL00615"
        [⟨"case_number", "Text", ""⟩]).2 ∧
    ((("case_number", (0.8 : ℚ)).2 = 0.8) ∨ (("case_number", (0.8 : ℚ)).2 = 0.6)) :=
  ⟨by decide,
   (C10_pattern_strategy_invariants "Case Number: 24STFL00615"
      [⟨"case_number", "Text", ""⟩]).2 ("case_number", 0.8) (by decide)⟩

end AgenticFormFiller
